import Mathlib

/-!
Verification of the raster-chunking program `split_tiff_to_chinks_with_prefix.py`.

The program is embedded shallowly.  Pure computations (grid arithmetic, band
reshuffling via `np.moveaxis`, blank detection via `np.all`, filename
construction, output-path derivation) are translated into Lean functions, and
the I/O performed by `split_chunks` and `process_tiff_directory` is recorded
as an explicit trace of effects, with `Except` modelling Python exceptions.
Filesystem paths are modelled as their lists of components, so `os.path.join`
is list append, `os.path.dirname` is `dropLast` and `os.path.basename` is the
last component.
-/

namespace SplitTiff

/-- A filesystem path, modelled as its list of components. -/
abbrev Path := List String

/-- Little-endian base-10 digit list of `n`, computed by structural
recursion on a fuel bound so the kernel can evaluate it. -/
def digitsFuel : Nat → Nat → List Nat
  | 0, _ => []
  | fuel + 1, n => if n = 0 then [] else n % 10 :: digitsFuel fuel (n / 10)

/-- Decimal representation of a natural number, exactly what Python's `str`
renders for a nonnegative integer interpolated into an f-string. -/
def decRepr (n : Nat) : String :=
  if n = 0 then ("0") else String.mk (((digitsFuel n n).map Nat.digitChar).reverse)

/-- `os.path.basename` on a component path: the final component
(empty for an empty path). -/
def basenameP (p : Path) : String :=
  match p.getLast? with
  | some s => s
  | none => ("")

/-- The stem (first component) of `os.path.splitext`, applied to a bare
basename: everything before the final dot, except that a name whose
characters before the final dot are all dots keeps its extension attached
(Python semantics: `splitext(".tif") = (".tif", "")`). -/
def stemStr (s : String) : String :=
  let cs := s.data
  if ('.') ∈ cs then
    let d := cs.length - 1 - cs.reverse.indexOf ('.')
    if (cs.take d).any (fun c => c != ('.')) then String.mk (cs.take d) else s
  else s

/-- The array returned by `dataset.read(window=w)` in rasterio: a 3-D array
of shape (bands, rows, cols); pixels are given as a function of
(band, row, col) indices together with the explicit shape. -/
structure Img3 where
  bands : Nat
  rows : Nat
  cols : Nat
  px : Nat → Nat → Nat → Nat

/-- An array in (rows, cols, bands) order, as produced by
`np.moveaxis(a, 0, -1)` on a (bands, rows, cols) array. -/
structure ChunkImage where
  rows : Nat
  cols : Nat
  bands : Nat
  px : Nat → Nat → Nat → Nat

/-- `np.moveaxis(a, 0, -1)`: move the band axis last, so the element at
(row, col, band) of the result is the element at (band, row, col) of the
input. -/
def moveBandsLast (a : Img3) : ChunkImage :=
  ⟨a.rows, a.cols, a.bands, fun r c b => a.px b r c⟩

/-- `small_image[:, :, :3]` applied when `small_image.shape[2] == 4`:
keep only the first 3 bands of a 4-band array; all other band counts are
left untouched. -/
def dropAlpha (ci : ChunkImage) : ChunkImage :=
  if ci.bands = 4 then ⟨ci.rows, ci.cols, 3, ci.px⟩ else ci

/-- Lines 49-52 of the source: `dataset.read(window=...)` always yields a
3-D (bands, rows, cols) array, so the `ndim == 3` branch always applies:
the array is reordered to (rows, cols, bands) and, when it has exactly 4
bands, the 4th (alpha) band is dropped. -/
def processWindow (a : Img3) : ChunkImage :=
  dropAlpha (moveBandsLast a)

/-- `np.all(small_image == v)`: every element (over the full shape) equals
`v`; vacuously true on an empty array, as for NumPy. -/
def allPx (ci : ChunkImage) (v : Nat) : Bool :=
  (List.range ci.rows).all fun r =>
    (List.range ci.cols).all fun c =>
      (List.range ci.bands).all fun b => ci.px r c b == v

/-- A rasterio window: `Window(col_off=..., row_off=..., width=..., height=...)`. -/
structure Window where
  col_off : Nat
  row_off : Nat
  width : Nat
  height : Nat
deriving DecidableEq

/-- The window constructed for grid cell (i, j) at lines 38-43:
`Window(col_off=j*x_pixels, row_off=i*y_pixels, width=x_pixels, height=y_pixels)`. -/
def theWindow (xp yp i j : Nat) : Window :=
  ⟨j * xp, i * yp, xp, yp⟩

/-- The chunk filename of lines 60-63:
`f"{prefix}_{tiff_name}_chunk_{i}_{j}.jpg"` when the prefix string is
non-empty (Python truthiness), else `f"{tiff_name}_chunk_{i}_{j}.jpg"`. -/
def chunk_name (pfx tn : String) (i j : Nat) : String :=
  if pfx = ("") then tn ++ "_chunk_" ++ decRepr i ++ "_" ++ decRepr j ++ ".jpg"
  else pfx ++ "_" ++ tn ++ "_chunk_" ++ decRepr i ++ "_" ++ decRepr j ++ ".jpg"

/-- An opened raster dataset: integer pixel dimensions plus a windowed read
that may raise (modelled with `Except`). -/
structure Dataset where
  width : Nat
  height : Nat
  read : Window → Except String Img3

/-- The I/O environment of one `split_chunks` call: the outcome of
`rasterio.open` and, per output path, whether `PIL.Image.save` succeeds. -/
structure Env where
  openDs : Except String Dataset
  saveOk : Path → Bool

/-- Observable effects of a run.  `closeSrc` is in the vocabulary so that
the absence of any release of the source handle is expressible; the source
never emits it (it opens the dataset without a `with` block and never calls
`close`). -/
inductive Eff where
  | mkdirs (p : Path)
  | openSrc (p : Path)
  | closeSrc (p : Path)
  | readWin (w : Window)
  | writeFile (p : Path)
  | progress
  | printMsg (s : String)
  | chunkCall (src : Path) (outDir : Path)
deriving DecidableEq

/-- Whether an effect is a release of the source handle. -/
def isClose : Eff → Bool
  | Eff.closeSrc _ => true
  | _ => false

/-- The loop body of `split_chunks` for one grid cell (i, j), lines 38-72:
read the window (a raised read error aborts), reorder and drop alpha, skip
all-white / all-black chunks (progress still ticks), otherwise write the
JPEG to `os.path.join(output_dir, chunk_name)` (a raised save error aborts)
and tick progress. -/
def cellEffs (env : Env) (ds : Dataset) (tn : String) (outDir : Path)
    (xp yp : Nat) (pfx : String) (i j : Nat) : List Eff × Except String Unit :=
  let w := theWindow xp yp i j
  match ds.read w with
  | Except.error e => ([Eff.readWin w], Except.error e)
  | Except.ok raw =>
    let img := processWindow raw
    if allPx img 255 || allPx img 0 then
      ([Eff.readWin w, Eff.progress], Except.ok ())
    else
      let p := outDir ++ [chunk_name pfx tn i j]
      if env.saveOk p then
        ([Eff.readWin w, Eff.writeFile p, Eff.progress], Except.ok ())
      else
        ([Eff.readWin w], Except.error ("IOError"))

/-- Sequential processing of a list of grid cells; the first raised
exception aborts the whole run (fail-fast, no skip-and-continue). -/
def runCells (env : Env) (ds : Dataset) (tn : String) (outDir : Path)
    (xp yp : Nat) (pfx : String) : List (Nat × Nat) → List Eff × Except String Unit
  | [] => ([], Except.ok ())
  | c :: cs =>
    let r := cellEffs env ds tn outDir xp yp pfx c.1 c.2
    match r.2 with
    | Except.error e => (r.1, Except.error e)
    | Except.ok _ =>
      let rest := runCells env ds tn outDir xp yp pfx cs
      (r.1 ++ rest.1, rest.2)

/-- The row-major grid enumeration of lines 36-37:
`for i in range(num_y_chunks): for j in range(num_x_chunks)`. -/
def cells (numY numX : Nat) : List (Nat × Nat) :=
  (List.range numY).flatMap fun i => (List.range numX).map fun j => (i, j)

/-- `split_chunks(tiff_path, output_dir, x_pixels, y_pixels, prefix)`,
lines 10-72: derive the stem, create the output directory, open the source
(a raised open error aborts after the directory was created), compute
`num_x_chunks = width // x_pixels` and `num_y_chunks = height // y_pixels`,
and process every grid cell in row-major order.  The dataset handle is
never explicitly closed on any path. -/
def split_chunks (env : Env) (tiffPath : Path) (outDir : Path)
    (xp yp : Nat) (pfx : String) : List Eff × Except String Unit :=
  let tn := stemStr (basenameP tiffPath)
  match env.openDs with
  | Except.error e => ([Eff.mkdirs outDir, Eff.openSrc tiffPath], Except.error e)
  | Except.ok ds =>
    let r := runCells env ds tn outDir xp yp pfx
      (cells (ds.height / yp) (ds.width / xp))
    (Eff.mkdirs outDir :: Eff.openSrc tiffPath :: r.1, r.2)

/-- The windows read during a run, in order. -/
def readWins (es : List Eff) : List Window :=
  es.filterMap fun e =>
    match e with
    | Eff.readWin w => some w
    | _ => none

/-- The paths written during a run, in order. -/
def writePaths (es : List Eff) : List Path :=
  es.filterMap fun e =>
    match e with
    | Eff.writeFile p => some p
    | _ => none

/-- Whether the processed chunk of grid cell `c` is uniformly 255 or
uniformly 0 (the skip condition of line 55), for a source whose windowed
reads return `imgOf w`. -/
def blankAt (imgOf : Window → Img3) (xp yp : Nat) (c : Nat × Nat) : Bool :=
  allPx (processWindow (imgOf (theWindow xp yp c.1 c.2))) 255 ||
    allPx (processWindow (imgOf (theWindow xp yp c.1 c.2))) 0

/-- Display form of a component path (only used inside printed messages). -/
def joinPath (p : Path) : String :=
  String.intercalate ("/") p

/-- The output directory computed for one discovered file at lines 98-105:
`os.path.join(output_dir, dirname(relpath), splitext(basename)[0])`, with
the file given by its components relative to the input root. -/
def subdirFor (outRoot : Path) (ps : Path) : Path :=
  outRoot ++ ps.dropLast ++ [stemStr (basenameP ps)]

/-- The per-file body of the directory walk, lines 96-110: create the
mirrored output subdirectory, print the file being processed, and invoke
`split_chunks` on the file with that subdirectory (`chunkCall` records the
invocation). -/
def processOne (envOf : Path → Env) (outRoot : Path) (xp yp : Nat)
    (pfx : String) (ps : Path) : List Eff × Except String Unit :=
  let sub := subdirFor outRoot ps
  let r := split_chunks (envOf ps) ps sub xp yp pfx
  (Eff.mkdirs sub :: Eff.printMsg ("Processing file: " ++ joinPath ps) ::
    Eff.chunkCall ps sub :: r.1, r.2)

/-- Sequential processing of the discovered files; a single file's failure
aborts the whole walk (propagated, not caught). -/
def runFiles (envOf : Path → Env) (outRoot : Path) (xp yp : Nat)
    (pfx : String) : List Path → List Eff × Except String Unit
  | [] => ([], Except.ok ())
  | f :: fs =>
    match processOne envOf outRoot xp yp pfx f with
    | (es, Except.error e) => (es, Except.error e)
    | (es, Except.ok _) =>
      match runFiles envOf outRoot xp yp pfx fs with
      | (es2, r2) => (es ++ es2, r2)

/-- `process_tiff_directory(input_dir, output_dir, ...)`, lines 75-112.
The recursive glob for `*.tif` / `*.tiff` files is external I/O; the list
of discovered files (as component paths relative to the input root) is a
parameter.  An empty list only prints the "No GeoTIFF files found" message
and returns; otherwise every file is processed in order and a final summary
message is printed. -/
def process_tiff_directory (envOf : Path → Env) (inDirName : String)
    (outRoot : Path) (xp yp : Nat) (pfx : String) (files : List Path) :
    List Eff × Except String Unit :=
  if files.isEmpty then
    ([Eff.printMsg ("No GeoTIFF files found in directory: " ++ inDirName)],
      Except.ok ())
  else
    match runFiles envOf outRoot xp yp pfx files with
    | (es, Except.ok _) =>
      (es ++ [Eff.printMsg ("All GeoTIFF files processed.")], Except.ok ())
    | (es, Except.error e) => (es, Except.error e)

/-- A constant-valued (bands, rows, cols) array, for concrete instances. -/
def constImg (b r c v : Nat) : Img3 :=
  ⟨b, r, c, fun _ _ _ => v⟩

/-- A dataset whose windowed reads always succeed with `img w`. -/
def goodDs (w h : Nat) (img : Window → Img3) : Dataset :=
  ⟨w, h, fun win => Except.ok (img win)⟩

/-- An environment whose open succeeded and whose saves all succeed. -/
def goodEnv (ds : Dataset) : Env :=
  ⟨Except.ok ds, fun _ => true⟩

/-- An environment whose `rasterio.open` raised. -/
def failEnv : Env :=
  ⟨Except.error ("open failed"), fun _ => true⟩

/-- Windowed reads of a concrete sample source: every window reads as a
3-band 1×1 array whose pixel value is 7 (neither 255 nor 0). -/
def wImg : Window → Img3 := fun _ => constImg 3 1 1 7

/-- A concrete 1×1 sample dataset whose reads are given by `wImg`. -/
def wDs : Dataset := goodDs 1 1 wImg

/-- A concrete environment: `wDs` opened successfully, all saves succeed. -/
def wEnv : Env := goodEnv wDs

/-- The digit list (most significant first) that `decRepr` renders,
including the padding digit for zero. -/
def decDigits (n : Nat) : List Nat :=
  if n = 0 then [0] else (Nat.digits 10 n).reverse

/-- The effect list one grid cell contributes in a run where every read
and every save succeeds. -/
def goodCellTrace (imgOf : Window → Img3) (outDir : Path) (xp yp : Nat)
    (pfx tn : String) (c : Nat × Nat) : List Eff :=
  if blankAt imgOf xp yp c then
    [Eff.readWin (theWindow xp yp c.1 c.2), Eff.progress]
  else
    [Eff.readWin (theWindow xp yp c.1 c.2),
      Eff.writeFile (outDir ++ [chunk_name pfx tn c.1 c.2]), Eff.progress]

theorem strData_append (s t : String) : (s ++ t).data = s.data ++ t.data := by
  cases s
  cases t
  rfl

theorem digitsFuel_eq : ∀ fuel n, n ≤ fuel → digitsFuel fuel n = Nat.digits 10 n := by
  intro fuel
  induction fuel with
  | zero =>
    intro n hn
    have : n = 0 := Nat.le_zero.mp hn
    subst this
    simp [digitsFuel]
  | succ f ih =>
    intro n hn
    by_cases h0 : n = 0
    · subst h0
      simp [digitsFuel]
    · rw [digitsFuel, if_neg h0, Nat.digits_def' (by norm_num : 1 < 10) (Nat.pos_of_ne_zero h0)]
      congr 1
      exact ih (n / 10) (by
        have : n / 10 < n := Nat.div_lt_self (Nat.pos_of_ne_zero h0) (by norm_num)
        omega)

theorem decRepr_eq (n : Nat) :
    decRepr n = String.mk ((decDigits n).map Nat.digitChar) := by
  unfold decRepr decDigits
  split
  · rfl
  · rw [digitsFuel_eq n n (Nat.le_refl n), List.map_reverse]

theorem decDigits_lt (n : Nat) : ∀ d ∈ decDigits n, d < 10 := by
  intro d hd
  unfold decDigits at hd
  split at hd
  · simp at hd
    omega
  · rw [List.mem_reverse] at hd
    exact Nat.digits_lt_base (by norm_num) hd

theorem ofDigits_singleton_zero : Nat.ofDigits 10 [0] = 0 := by
  simp [Nat.ofDigits]

theorem decDigits_inj {m n : Nat} (h : decDigits m = decDigits n) : m = n := by
  unfold decDigits at h
  split at h <;> split at h
  · omega
  · exfalso
    have : Nat.digits 10 n = [0] := by
      have := congrArg List.reverse h
      simpa using this.symm
    have hn := congrArg (Nat.ofDigits 10) this
    rw [Nat.ofDigits_digits, ofDigits_singleton_zero] at hn
    omega
  · exfalso
    have : Nat.digits 10 m = [0] := by
      have := congrArg List.reverse h
      simpa using this
    have hm := congrArg (Nat.ofDigits 10) this
    rw [Nat.ofDigits_digits, ofDigits_singleton_zero] at hm
    omega
  · have := congrArg List.reverse h
    simp only [List.reverse_reverse] at this
    exact Nat.digits_inj_iff.mp this

theorem digitChar_inj_lt : ∀ d < 10, ∀ e < 10,
    Nat.digitChar d = Nat.digitChar e → d = e := by decide

theorem digitChar_isDigit : ∀ d < 10, (Nat.digitChar d).isDigit = true := by
  decide

theorem mapDigitChar_inj : ∀ (xs ys : List Nat), (∀ d ∈ xs, d < 10) →
    (∀ d ∈ ys, d < 10) → xs.map Nat.digitChar = ys.map Nat.digitChar →
    xs = ys := by
  intro xs
  induction xs with
  | nil =>
    intro ys _ _ h
    cases ys with
    | nil => rfl
    | cons b bs => simp at h
  | cons a as ih =>
    intro ys hx hy h
    cases ys with
    | nil => simp at h
    | cons b bs =>
      simp only [List.map_cons, List.cons.injEq] at h
      have ha : a = b :=
        digitChar_inj_lt a (hx a (by simp)) b (hy b (by simp)) h.1
      have hrest := ih bs (fun d hd => hx d (by simp [hd]))
        (fun d hd => hy d (by simp [hd])) h.2
      rw [ha, hrest]

theorem decRepr_data_inj {m n : Nat}
    (h : (decRepr m).data = (decRepr n).data) : m = n := by
  rw [decRepr_eq, decRepr_eq] at h
  exact decDigits_inj
    (mapDigitChar_inj _ _ (decDigits_lt m) (decDigits_lt n) h)

theorem decRepr_isDigit (n : Nat) :
    ∀ c ∈ (decRepr n).data, c.isDigit = true := by
  intro c hc
  rw [decRepr_eq] at hc
  simp only [List.mem_map] at hc
  obtain ⟨d, hd, rfl⟩ := hc
  exact digitChar_isDigit d (decDigits_lt n d hd)

theorem sep_split {sep : Char} : ∀ (xs xs' ys ys' : List Char),
    (∀ c ∈ xs, c ≠ sep) → (∀ c ∈ xs', c ≠ sep) →
    xs ++ sep :: ys = xs' ++ sep :: ys' → xs = xs' ∧ ys = ys' := by
  intro xs
  induction xs with
  | nil =>
    intro xs' ys ys' _ hx' h
    cases xs' with
    | nil => simpa using h
    | cons b bs =>
      exfalso
      simp only [List.nil_append, List.cons_append, List.cons.injEq] at h
      exact hx' b (by simp) h.1.symm
  | cons a as ih =>
    intro xs' ys ys' hx hx' h
    cases xs' with
    | nil =>
      exfalso
      simp only [List.nil_append, List.cons_append, List.cons.injEq] at h
      exact hx a (by simp) h.1
    | cons b bs =>
      simp only [List.cons_append, List.cons.injEq] at h
      have := ih bs ys ys' (fun c hc => hx c (by simp [hc]))
        (fun c hc => hx' c (by simp [hc])) h.2
      exact ⟨by rw [h.1, this.1], this.2⟩

theorem data_us : ("_").data = [('_')] := rfl

theorem data_jpg : (".jpg").data = [('.'), ('j'), ('p'), ('g')] := rfl

theorem digit_ne_us {c : Char} (h : c.isDigit = true) : c ≠ ('_') := by
  intro he
  rw [he] at h
  exact absurd h (by decide)

theorem digit_ne_dot {c : Char} (h : c.isDigit = true) : c ≠ ('.') := by
  intro he
  rw [he] at h
  exact absurd h (by decide)

theorem chunk_name_data (pfx tn : String) (a b : Nat) :
    (chunk_name pfx tn a b).data =
      (if pfx = ("") then tn.data ++ ("_chunk_").data
        else pfx.data ++ ('_') :: (tn.data ++ ("_chunk_").data)) ++
      ((decRepr a).data ++ ('_') ::
        ((decRepr b).data ++ ('.') :: [('j'), ('p'), ('g')])) := by
  unfold chunk_name
  split <;> simp [strData_append, data_us, data_jpg]

theorem chunk_name_inj (pfx tn : String) {i j i' j' : Nat}
    (h : chunk_name pfx tn i j = chunk_name pfx tn i' j') :
    i = i' ∧ j = j' := by
  have hd := congrArg String.data h
  rw [chunk_name_data, chunk_name_data] at hd
  have hinner := List.append_cancel_left hd
  have h1 := sep_split (decRepr i).data (decRepr i').data _ _
    (fun c hc => digit_ne_us (decRepr_isDigit i c hc))
    (fun c hc => digit_ne_us (decRepr_isDigit i' c hc)) hinner
  have h2 := sep_split (decRepr j).data (decRepr j').data _ _
    (fun c hc => digit_ne_dot (decRepr_isDigit j c hc))
    (fun c hc => digit_ne_dot (decRepr_isDigit j' c hc)) h1.2
  exact ⟨decRepr_data_inj h1.1, decRepr_data_inj h2.1⟩

theorem mem_cells {numY numX i j : Nat} :
    (i, j) ∈ cells numY numX ↔ i < numY ∧ j < numX := by
  simp [cells, List.mem_flatMap, List.mem_map, List.mem_range, eq_comm]

theorem length_cells (numY numX : Nat) :
    (cells numY numX).length = numY * numX := by
  induction numY with
  | zero => simp [cells]
  | succ k ih =>
    have hsplit : cells (k + 1) numX =
        cells k numX ++ (List.range numX).map (fun j => (k, j)) := by
      unfold cells
      rw [List.range_succ, List.flatMap_append]
      simp
    rw [hsplit, List.length_append, ih, List.length_map, List.length_range,
      Nat.succ_mul]

theorem nodup_cells (numY numX : Nat) : (cells numY numX).Nodup := by
  unfold cells
  rw [List.nodup_flatMap]
  constructor
  · intro x _
    exact (List.nodup_range numX).map (fun a b hab => by
      simpa using congrArg Prod.snd hab)
  · apply List.Pairwise.imp ?_ (List.pairwise_lt_range numY)
    intro a b hab
    rw [Function.onFun, List.disjoint_left]
    intro p hp hp'
    simp only [List.mem_map, List.mem_range] at hp hp'
    obtain ⟨x, _, rfl⟩ := hp
    obtain ⟨y, _, he⟩ := hp'
    have := congrArg Prod.fst he
    simp at this
    omega

theorem cellEffs_good {env : Env} {ds : Dataset} {imgOf : Window → Img3}
    (tn : String) (outDir : Path) (xp yp : Nat) (pfx : String) (c : Nat × Nat)
    (hread : ds.read = fun w => Except.ok (imgOf w))
    (hsave : ∀ p, env.saveOk p = true) :
    cellEffs env ds tn outDir xp yp pfx c.1 c.2 =
      (goodCellTrace imgOf outDir xp yp pfx tn c, Except.ok ()) := by
  unfold cellEffs goodCellTrace blankAt
  rw [hread]
  by_cases hb : allPx (processWindow (imgOf (theWindow xp yp c.1 c.2))) 255 ||
      allPx (processWindow (imgOf (theWindow xp yp c.1 c.2))) 0
  · simp [hb]
  · simp [hb, hsave]

theorem runCells_good {env : Env} {ds : Dataset} {imgOf : Window → Img3}
    (tn : String) (outDir : Path) (xp yp : Nat) (pfx : String)
    (hread : ds.read = fun w => Except.ok (imgOf w))
    (hsave : ∀ p, env.saveOk p = true) :
    ∀ cs, runCells env ds tn outDir xp yp pfx cs =
      (cs.flatMap (goodCellTrace imgOf outDir xp yp pfx tn), Except.ok ()) := by
  intro cs
  induction cs with
  | nil => simp [runCells]
  | cons c cs ih =>
    simp only [runCells]
    rw [cellEffs_good tn outDir xp yp pfx c hread hsave, ih]
    rfl

theorem split_chunks_good {env : Env} {ds : Dataset} {imgOf : Window → Img3}
    (tiffPath outDir : Path) (xp yp : Nat) (pfx : String)
    (hopen : env.openDs = Except.ok ds)
    (hread : ds.read = fun w => Except.ok (imgOf w))
    (hsave : ∀ p, env.saveOk p = true) :
    split_chunks env tiffPath outDir xp yp pfx =
      (Eff.mkdirs outDir :: Eff.openSrc tiffPath ::
        (cells (ds.height / yp) (ds.width / xp)).flatMap
          (goodCellTrace imgOf outDir xp yp pfx (stemStr (basenameP tiffPath))),
        Except.ok ()) := by
  have h := runCells_good (stemStr (basenameP tiffPath)) outDir xp yp pfx
    hread hsave (cells (ds.height / yp) (ds.width / xp))
  unfold split_chunks
  rw [hopen]
  show (Eff.mkdirs outDir :: Eff.openSrc tiffPath ::
      (runCells env ds (stemStr (basenameP tiffPath)) outDir xp yp pfx
        (cells (ds.height / yp) (ds.width / xp))).1,
    (runCells env ds (stemStr (basenameP tiffPath)) outDir xp yp pfx
        (cells (ds.height / yp) (ds.width / xp))).2) = _
  rw [h]

theorem readWins_append (a b : List Eff) :
    readWins (a ++ b) = readWins a ++ readWins b := by
  simp [readWins, List.filterMap_append]

theorem writePaths_append (a b : List Eff) :
    writePaths (a ++ b) = writePaths a ++ writePaths b := by
  simp [writePaths, List.filterMap_append]

theorem readWins_goodTrace (imgOf : Window → Img3) (outDir : Path)
    (xp yp : Nat) (pfx tn : String) : ∀ cs : List (Nat × Nat),
    readWins (cs.flatMap (goodCellTrace imgOf outDir xp yp pfx tn)) =
      cs.map (fun c => theWindow xp yp c.1 c.2) := by
  intro cs
  induction cs with
  | nil => rfl
  | cons c cs ih =>
    rw [List.flatMap_cons, readWins_append, ih]
    have : readWins (goodCellTrace imgOf outDir xp yp pfx tn c) =
        [theWindow xp yp c.1 c.2] := by
      unfold goodCellTrace
      split <;> rfl
    rw [this]
    rfl

theorem writePaths_goodTrace (imgOf : Window → Img3) (outDir : Path)
    (xp yp : Nat) (pfx tn : String) : ∀ cs : List (Nat × Nat),
    writePaths (cs.flatMap (goodCellTrace imgOf outDir xp yp pfx tn)) =
      (cs.filter (fun c => !(blankAt imgOf xp yp c))).map
        (fun c => outDir ++ [chunk_name pfx tn c.1 c.2]) := by
  intro cs
  induction cs with
  | nil => rfl
  | cons c cs ih =>
    rw [List.flatMap_cons, writePaths_append, ih]
    by_cases hb : blankAt imgOf xp yp c
    · simp [goodCellTrace, hb, writePaths]
    · simp [goodCellTrace, hb, writePaths]

theorem noClose_cellEffs (env : Env) (ds : Dataset) (tn : String)
    (outDir : Path) (xp yp : Nat) (pfx : String) (i j : Nat) (p : Path) :
    Eff.closeSrc p ∉ (cellEffs env ds tn outDir xp yp pfx i j).1 := by
  simp only [cellEffs]
  split
  · simp
  · split
    · simp
    · split <;> simp

theorem noClose_runCells (env : Env) (ds : Dataset) (tn : String)
    (outDir : Path) (xp yp : Nat) (pfx : String) (p : Path) :
    ∀ cs, Eff.closeSrc p ∉ (runCells env ds tn outDir xp yp pfx cs).1 := by
  intro cs
  induction cs with
  | nil => simp [runCells]
  | cons c cs ih =>
    simp only [runCells]
    split
    · exact noClose_cellEffs env ds tn outDir xp yp pfx c.1 c.2 p
    · simp only [List.mem_append]
      intro hmem
      cases hmem with
      | inl h => exact noClose_cellEffs env ds tn outDir xp yp pfx c.1 c.2 p h
      | inr h => exact ih h

/-- Claim C1: for a source of dimensions W×H and positive chunk size cw×ch,
`split_chunks` reads exactly `(W / cw) * (H / ch)` grid windows, each of the
form `(col_off = j*cw, row_off = i*ch, width = cw, height = ch)` with
`i < H / ch` and `j < W / cw` (and every such (i, j) occurring), so no
window's bounds exceed `[0, W) × [0, H)` and trailing partial rows/columns
are excluded. -/
theorem split_chunks_grid {env : Env} {ds : Dataset} {imgOf : Window → Img3}
    (tiffPath outDir : Path) (xp yp : Nat) (pfx : String)
    (hxp : 0 < xp) (hyp0 : 0 < yp)
    (hopen : env.openDs = Except.ok ds)
    (hread : ds.read = fun w => Except.ok (imgOf w))
    (hsave : ∀ p, env.saveOk p = true) :
    (readWins (split_chunks env tiffPath outDir xp yp pfx).1).length =
        (ds.width / xp) * (ds.height / yp) ∧
    (∀ w ∈ readWins (split_chunks env tiffPath outDir xp yp pfx).1,
      ∃ i j, i < ds.height / yp ∧ j < ds.width / xp ∧
        w = Window.mk (j * xp) (i * yp) xp yp) ∧
    (∀ i j, i < ds.height / yp → j < ds.width / xp →
      Window.mk (j * xp) (i * yp) xp yp ∈
        readWins (split_chunks env tiffPath outDir xp yp pfx).1) ∧
    (∀ w ∈ readWins (split_chunks env tiffPath outDir xp yp pfx).1,
      w.col_off + w.width ≤ ds.width ∧ w.row_off + w.height ≤ ds.height) := by
  have hs := split_chunks_good tiffPath outDir xp yp pfx hopen hread hsave
  have hw : readWins (split_chunks env tiffPath outDir xp yp pfx).1 =
      (cells (ds.height / yp) (ds.width / xp)).map
        (fun c => theWindow xp yp c.1 c.2) := by
    rw [hs]
    exact readWins_goodTrace imgOf outDir xp yp pfx
      (stemStr (basenameP tiffPath)) _
  refine ⟨?_, ?_, ?_, ?_⟩
  · rw [hw, List.length_map, length_cells, Nat.mul_comm]
  · intro w hwm
    rw [hw] at hwm
    simp only [List.mem_map] at hwm
    obtain ⟨c, hc, rfl⟩ := hwm
    have hb := mem_cells.mp hc
    exact ⟨c.1, c.2, hb.1, hb.2, rfl⟩
  · intro i j hi hj
    rw [hw]
    simp only [List.mem_map]
    exact ⟨(i, j), mem_cells.mpr ⟨hi, hj⟩, rfl⟩
  · intro w hwm
    rw [hw] at hwm
    simp only [List.mem_map] at hwm
    obtain ⟨c, hc, rfl⟩ := hwm
    have hb := mem_cells.mp hc
    constructor
    · show c.2 * xp + xp ≤ ds.width
      have h1 : (c.2 + 1) * xp ≤ (ds.width / xp) * xp :=
        Nat.mul_le_mul_right xp hb.2
      have h2 : (ds.width / xp) * xp ≤ ds.width := Nat.div_mul_le_self _ _
      rw [Nat.succ_mul] at h1
      omega
    · show c.1 * yp + yp ≤ ds.height
      have h1 : (c.1 + 1) * yp ≤ (ds.height / yp) * yp :=
        Nat.mul_le_mul_right yp hb.1
      have h2 : (ds.height / yp) * yp ≤ ds.height := Nat.div_mul_le_self _ _
      rw [Nat.succ_mul] at h1
      omega

/-- Witness for claim C1: a concrete 1×1 source with 1×1 chunks. -/
theorem split_chunks_grid_witness :
    0 < 1 ∧
    ((readWins (split_chunks wEnv ([("img.tif")]) ([("out")]) 1 1 ("")).1).length =
        (wDs.width / 1) * (wDs.height / 1) ∧
      (∀ w ∈ readWins (split_chunks wEnv ([("img.tif")]) ([("out")]) 1 1 ("")).1,
        ∃ i j, i < wDs.height / 1 ∧ j < wDs.width / 1 ∧
          w = Window.mk (j * 1) (i * 1) 1 1) ∧
      (∀ i j, i < wDs.height / 1 → j < wDs.width / 1 →
        Window.mk (j * 1) (i * 1) 1 1 ∈
          readWins (split_chunks wEnv ([("img.tif")]) ([("out")]) 1 1 ("")).1) ∧
      (∀ w ∈ readWins (split_chunks wEnv ([("img.tif")]) ([("out")]) 1 1 ("")).1,
        w.col_off + w.width ≤ wDs.width ∧ w.row_off + w.height ≤ wDs.height)) :=
  ⟨by decide,
    split_chunks_grid ([("img.tif")]) ([("out")]) 1 1 ("")
      (by decide) (by decide) rfl rfl (fun p => rfl)⟩

/-- Claim C7: if the chunk width exceeds the source's width or the chunk
height exceeds the source's height, `split_chunks` produces zero chunks
and terminates successfully (the grid is empty, no error is raised). -/
theorem split_chunks_oversize {env : Env} {ds : Dataset}
    (tiffPath outDir : Path) (xp yp : Nat) (pfx : String)
    (hxp : 0 < xp) (hyp0 : 0 < yp)
    (hopen : env.openDs = Except.ok ds)
    (h : ds.width < xp ∨ ds.height < yp) :
    (split_chunks env tiffPath outDir xp yp pfx).1 =
        [Eff.mkdirs outDir, Eff.openSrc tiffPath] ∧
    (split_chunks env tiffPath outDir xp yp pfx).2 = Except.ok () ∧
    writePaths (split_chunks env tiffPath outDir xp yp pfx).1 = [] := by
  have hcells : cells (ds.height / yp) (ds.width / xp) = [] := by
    cases h with
    | inl hw =>
      have : ds.width / xp = 0 := Nat.div_eq_of_lt hw
      rw [this]
      simp [cells]
    | inr hh =>
      have : ds.height / yp = 0 := Nat.div_eq_of_lt hh
      rw [this]
      simp [cells]
  have hsc : split_chunks env tiffPath outDir xp yp pfx =
      ([Eff.mkdirs outDir, Eff.openSrc tiffPath], Except.ok ()) := by
    unfold split_chunks
    rw [hopen]
    show (Eff.mkdirs outDir :: Eff.openSrc tiffPath ::
        (runCells env ds (stemStr (basenameP tiffPath)) outDir xp yp pfx
          (cells (ds.height / yp) (ds.width / xp))).1,
      (runCells env ds (stemStr (basenameP tiffPath)) outDir xp yp pfx
          (cells (ds.height / yp) (ds.width / xp))).2) = _
    rw [hcells]
    rfl
  exact ⟨by rw [hsc], by rw [hsc], by rw [hsc]; rfl⟩

/-- Witness for claim C7: a 1×1 source with 2×1 chunks produces nothing. -/
theorem split_chunks_oversize_witness :
    0 < 2 ∧ wDs.width < 2 ∧
    ((split_chunks wEnv ([("img.tif")]) ([("out")]) 2 1 ("")).1 =
        [Eff.mkdirs ([("out")]), Eff.openSrc ([("img.tif")])] ∧
      (split_chunks wEnv ([("img.tif")]) ([("out")]) 2 1 ("")).2 = Except.ok () ∧
      writePaths (split_chunks wEnv ([("img.tif")]) ([("out")]) 2 1 ("")).1 = []) :=
  ⟨by decide, by decide,
    split_chunks_oversize ([("img.tif")]) ([("out")]) 2 1 ("")
      (by decide) (by decide) rfl (Or.inl (by decide))⟩

/-- Claim C10: `split_chunks` creates the output directory before it
attempts to open the source, so when the open raises, the trace still
contains the directory creation (as its first effect) while no chunk file
was written; the failure is propagated. -/
theorem split_chunks_open_fail {env : Env}
    (tiffPath outDir : Path) (xp yp : Nat) (pfx : String) (e : String)
    (h : env.openDs = Except.error e) :
    (split_chunks env tiffPath outDir xp yp pfx).1 =
        [Eff.mkdirs outDir, Eff.openSrc tiffPath] ∧
    (split_chunks env tiffPath outDir xp yp pfx).2 = Except.error e ∧
    writePaths (split_chunks env tiffPath outDir xp yp pfx).1 = [] := by
  unfold split_chunks
  rw [h]
  exact ⟨rfl, rfl, rfl⟩

/-- Witness for claim C10: a concrete environment whose open fails. -/
theorem split_chunks_open_fail_witness :
    failEnv.openDs = Except.error ("open failed") ∧
    ((split_chunks failEnv ([("img.tif")]) ([("out")]) 1 1 ("")).1 =
        [Eff.mkdirs ([("out")]), Eff.openSrc ([("img.tif")])] ∧
      (split_chunks failEnv ([("img.tif")]) ([("out")]) 1 1 ("")).2 =
        Except.error ("open failed") ∧
      writePaths (split_chunks failEnv ([("img.tif")]) ([("out")]) 1 1 ("")).1 = []) :=
  ⟨rfl, split_chunks_open_fail ([("img.tif")]) ([("out")]) 1 1 ("")
    ("open failed") rfl⟩

theorem mem_writePaths (p : Path) (es : List Eff) :
    p ∈ writePaths es ↔ Eff.writeFile p ∈ es := by
  unfold writePaths
  rw [List.mem_filterMap]
  constructor
  · rintro ⟨e, he, hfe⟩
    cases e with
    | writeFile q =>
      simp only [Option.some.injEq] at hfe
      rw [← hfe]
      exact he
    | mkdirs q => simp at hfe
    | openSrc q => simp at hfe
    | closeSrc q => simp at hfe
    | readWin w => simp at hfe
    | progress => simp at hfe
    | printMsg s => simp at hfe
    | chunkCall s o => simp at hfe
  · intro he
    exact ⟨Eff.writeFile p, he, rfl⟩

/-- Claim C2: for every grid window (i, j), a run of `split_chunks` in which
the open, every read and every save succeed writes the window's output file
if and only if the window's band-reduced pixel array is neither uniformly
255 nor uniformly 0. -/
theorem split_chunks_blank_filter {env : Env} {ds : Dataset}
    {imgOf : Window → Img3}
    (tiffPath outDir : Path) (xp yp : Nat) (pfx : String) (i j : Nat)
    (hopen : env.openDs = Except.ok ds)
    (hread : ds.read = fun w => Except.ok (imgOf w))
    (hsave : ∀ p, env.saveOk p = true)
    (hi : i < ds.height / yp) (hj : j < ds.width / xp) :
    Eff.writeFile (outDir ++ [chunk_name pfx (stemStr (basenameP tiffPath)) i j]) ∈
        (split_chunks env tiffPath outDir xp yp pfx).1 ↔
      ¬(allPx (processWindow (imgOf (theWindow xp yp i j))) 255 = true ∨
        allPx (processWindow (imgOf (theWindow xp yp i j))) 0 = true) := by
  have hs := split_chunks_good tiffPath outDir xp yp pfx hopen hread hsave
  have hwp : writePaths (split_chunks env tiffPath outDir xp yp pfx).1 =
      ((cells (ds.height / yp) (ds.width / xp)).filter
        (fun c => !(blankAt imgOf xp yp c))).map
        (fun c => outDir ++ [chunk_name pfx (stemStr (basenameP tiffPath)) c.1 c.2]) := by
    rw [hs]
    exact writePaths_goodTrace imgOf outDir xp yp pfx
      (stemStr (basenameP tiffPath)) _
  rw [← mem_writePaths, hwp]
  simp only [List.mem_map, List.mem_filter]
  constructor
  · rintro ⟨c, ⟨hcmem, hcb⟩, hpeq⟩
    have h1 := List.append_cancel_left hpeq
    have hname : chunk_name pfx (stemStr (basenameP tiffPath)) c.1 c.2 =
        chunk_name pfx (stemStr (basenameP tiffPath)) i j := by
      simpa using h1
    obtain ⟨hci, hcj⟩ := chunk_name_inj pfx (stemStr (basenameP tiffPath)) hname
    unfold blankAt at hcb
    rw [hci, hcj] at hcb
    intro hor
    rcases hor with h255 | h0
    · rw [h255] at hcb
      simp at hcb
    · rw [h0] at hcb
      simp at hcb
  · intro hnor
    refine ⟨(i, j), ⟨mem_cells.mpr ⟨hi, hj⟩, ?_⟩, rfl⟩
    unfold blankAt
    rw [not_or] at hnor
    simp only [Bool.not_eq_true] at hnor
    simp [hnor.1, hnor.2]

/-- Witness for claim C2: a 1×1 source whose single window is constant 7,
so it is neither all-255 nor all-0 and its file is written. -/
theorem split_chunks_blank_filter_witness :
    0 < wDs.height / 1 ∧
    (Eff.writeFile (([("out")] : Path) ++
        [chunk_name ("") (stemStr (basenameP ([("img.tif")]))) 0 0] ) ∈
        (split_chunks wEnv ([("img.tif")]) ([("out")]) 1 1 ("")).1 ↔
      ¬(allPx (processWindow (wImg (theWindow 1 1 0 0))) 255 = true ∨
        allPx (processWindow (wImg (theWindow 1 1 0 0))) 0 = true)) :=
  ⟨by decide,
    split_chunks_blank_filter ([("img.tif")]) ([("out")]) 1 1 ("") 0 0
      rfl rfl (fun p => rfl) (by decide) (by decide)⟩

/-- Claim C5: every written output path is `output_dir` joined with
`{prefix}_{stem}_chunk_{i}_{j}.jpg` (the prefixed underscore present
exactly when the prefix is non-empty), for some grid indices
`i < H / ch`, `j < W / cw`; and within one source no two written paths
coincide, because distinct (i, j) pairs give distinct names. -/
theorem split_chunks_filenames {env : Env} {ds : Dataset}
    {imgOf : Window → Img3}
    (tiffPath outDir : Path) (xp yp : Nat) (pfx : String)
    (hopen : env.openDs = Except.ok ds)
    (hread : ds.read = fun w => Except.ok (imgOf w))
    (hsave : ∀ p, env.saveOk p = true) :
    (∀ i j, chunk_name pfx (stemStr (basenameP tiffPath)) i j =
      (if pfx = ("") then
        stemStr (basenameP tiffPath) ++ "_chunk_" ++ decRepr i ++ "_" ++
          decRepr j ++ ".jpg"
      else
        pfx ++ "_" ++ stemStr (basenameP tiffPath) ++ "_chunk_" ++ decRepr i ++
          "_" ++ decRepr j ++ ".jpg")) ∧
    (∀ p ∈ writePaths (split_chunks env tiffPath outDir xp yp pfx).1,
      ∃ i j, i < ds.height / yp ∧ j < ds.width / xp ∧
        p = outDir ++ [chunk_name pfx (stemStr (basenameP tiffPath)) i j]) ∧
    (writePaths (split_chunks env tiffPath outDir xp yp pfx).1).Nodup := by
  have hs := split_chunks_good tiffPath outDir xp yp pfx hopen hread hsave
  have hwp : writePaths (split_chunks env tiffPath outDir xp yp pfx).1 =
      ((cells (ds.height / yp) (ds.width / xp)).filter
        (fun c => !(blankAt imgOf xp yp c))).map
        (fun c => outDir ++ [chunk_name pfx (stemStr (basenameP tiffPath)) c.1 c.2]) := by
    rw [hs]
    exact writePaths_goodTrace imgOf outDir xp yp pfx
      (stemStr (basenameP tiffPath)) _
  refine ⟨fun i j => rfl, ?_, ?_⟩
  · intro p hp
    rw [hwp] at hp
    simp only [List.mem_map, List.mem_filter] at hp
    obtain ⟨c, ⟨hc, _⟩, rfl⟩ := hp
    have hb := mem_cells.mp hc
    exact ⟨c.1, c.2, hb.1, hb.2, rfl⟩
  · rw [hwp]
    refine List.Nodup.map ?_ ((nodup_cells _ _).filter _)
    intro c c' hcc
    have h1 := List.append_cancel_left hcc
    have h2 : chunk_name pfx (stemStr (basenameP tiffPath)) c.1 c.2 =
        chunk_name pfx (stemStr (basenameP tiffPath)) c'.1 c'.2 := by
      simpa using h1
    obtain ⟨ha, hb2⟩ := chunk_name_inj pfx (stemStr (basenameP tiffPath)) h2
    exact Prod.ext ha hb2

/-- Witness for claim C5: the concrete 1×1 run writes one file with the
expected name and a duplicate-free path list. -/
theorem split_chunks_filenames_witness :
    (∀ i j, chunk_name ("") (stemStr (basenameP ([("img.tif")]))) i j =
      (if ("" : String) = ("") then
        stemStr (basenameP ([("img.tif")])) ++ "_chunk_" ++ decRepr i ++ "_" ++
          decRepr j ++ ".jpg"
      else
        ("" : String) ++ "_" ++ stemStr (basenameP ([("img.tif")])) ++ "_chunk_" ++
          decRepr i ++ "_" ++ decRepr j ++ ".jpg")) ∧
    (∀ p ∈ writePaths (split_chunks wEnv ([("img.tif")]) ([("out")]) 1 1 ("")).1,
      ∃ i j, i < wDs.height / 1 ∧ j < wDs.width / 1 ∧
        p = ([("out")] : Path) ++
          [chunk_name ("") (stemStr (basenameP ([("img.tif")]))) i j]) ∧
    (writePaths (split_chunks wEnv ([("img.tif")]) ([("out")]) 1 1 ("")).1).Nodup :=
  split_chunks_filenames ([("img.tif")]) ([("out")]) 1 1 ("")
    rfl rfl (fun p => rfl)

/-- Claim C3 counterexample: a 5-band source window passes through the
band handling with all 5 bands intact, refuting "at most 3 bands" for
arbitrary sources (only an exactly-4-band window is reduced). -/
theorem processWindow_five_bands_cex :
    (processWindow (constImg 5 1 1 7)).bands = 5 ∧
    ¬((processWindow (constImg 5 1 1 7)).bands ≤ 3) := by decide

/-- Claim C3 (amended): every window array is reordered to
rows×cols×bands with pixel (r, c, b) equal to source pixel (b, r, c);
an exactly-4-band window keeps its first 3 bands, and any other band
count is unchanged — hence at most 3 bands whenever the source window
has at most 4 bands (in particular 3-band and single-band windows keep
their band count). -/
theorem processWindow_spec (a : Img3) :
    (processWindow a).rows = a.rows ∧
    (processWindow a).cols = a.cols ∧
    (processWindow a).bands = (if a.bands = 4 then 3 else a.bands) ∧
    (∀ r c b, (processWindow a).px r c b = a.px b r c) ∧
    (a.bands ≤ 4 → (processWindow a).bands ≤ 3) ∧
    ((a.bands = 3 ∨ a.bands = 1) → (processWindow a).bands = a.bands) := by
  by_cases h4 : a.bands = 4
  · have hpw : processWindow a =
        ⟨a.rows, a.cols, 3, fun r c b => a.px b r c⟩ := by
      unfold processWindow dropAlpha moveBandsLast
      rw [if_pos h4]
    rw [hpw, if_pos h4]
    refine ⟨rfl, rfl, rfl, fun r c b => rfl, fun _ => Nat.le_refl 3, fun hc => ?_⟩
    show (3 : Nat) = a.bands
    rcases hc with h | h <;> omega
  · have hpw : processWindow a =
        ⟨a.rows, a.cols, a.bands, fun r c b => a.px b r c⟩ := by
      unfold processWindow dropAlpha moveBandsLast
      rw [if_neg h4]
    rw [hpw, if_neg h4]
    refine ⟨rfl, rfl, rfl, fun r c b => rfl, fun hle => ?_, fun _ => rfl⟩
    show a.bands ≤ 3
    omega

/-- Witness for claim C3 (amended): a concrete 4-band 2×2 window. -/
theorem processWindow_spec_witness :
    (processWindow (constImg 4 2 2 9)).rows = (constImg 4 2 2 9).rows ∧
    (processWindow (constImg 4 2 2 9)).cols = (constImg 4 2 2 9).cols ∧
    (processWindow (constImg 4 2 2 9)).bands =
      (if (constImg 4 2 2 9).bands = 4 then 3 else (constImg 4 2 2 9).bands) ∧
    (∀ r c b, (processWindow (constImg 4 2 2 9)).px r c b =
      (constImg 4 2 2 9).px b r c) ∧
    ((constImg 4 2 2 9).bands ≤ 4 → (processWindow (constImg 4 2 2 9)).bands ≤ 3) ∧
    (((constImg 4 2 2 9).bands = 3 ∨ (constImg 4 2 2 9).bands = 1) →
      (processWindow (constImg 4 2 2 9)).bands = (constImg 4 2 2 9).bands) :=
  processWindow_spec (constImg 4 2 2 9)

/-- Claim C4 counterexample: a concrete successful run opens the source
but its trace contains no release of the handle, refuting "releases the
raster source handle on every exit path". -/
theorem split_chunks_no_release_cex :
    Eff.openSrc ([("img.tif")]) ∈
      (split_chunks wEnv ([("img.tif")]) ([("out")]) 1 1 ("")).1 ∧
    ((split_chunks wEnv ([("img.tif")]) ([("out")]) 1 1 ("")).1.all
      (fun e => !(isClose e))) = true := by decide

/-- Claim C4 (amended): `split_chunks` never explicitly releases the
source handle it opened: no exit path, successful or failing, emits a
close of the dataset (the code opens without a `with` block and never
calls `close`; release is left to the runtime's garbage collector rather
than tied to function exit). -/
theorem split_chunks_never_closes (env : Env) (tiffPath outDir : Path)
    (xp yp : Nat) (pfx : String) (p : Path) :
    Eff.closeSrc p ∉ (split_chunks env tiffPath outDir xp yp pfx).1 := by
  simp only [split_chunks]
  split
  · simp
  · intro hmem
    simp only [List.mem_cons] at hmem
    rcases hmem with h | h | h
    · exact Eff.noConfusion h
    · exact Eff.noConfusion h
    · exact noClose_runCells _ _ _ _ _ _ _ _ _ h

/-- Claim C6: for a discovered file with relative directory `dirs` and
filename `fname`, the directory walk computes the output directory as
`output_root / dirs / stem(fname)` (each source file gets its own leaf
directory named after its stem, mirroring the relative directory), emits
its creation first, and invokes the Chunker on the file with that
directory; these per-file effects head the walk's trace when the file is
processed first. -/
theorem process_tiff_directory_mirrors (envOf : Path → Env)
    (inDirName : String) (outRoot : Path) (xp yp : Nat) (pfx : String)
    (dirs : List String) (fname : String) (rest : List Path) :
    subdirFor outRoot (dirs ++ [fname]) = outRoot ++ dirs ++ [stemStr fname] ∧
    (processOne envOf outRoot xp yp pfx (dirs ++ [fname])).1 =
      Eff.mkdirs (outRoot ++ dirs ++ [stemStr fname]) ::
      Eff.printMsg ("Processing file: " ++ joinPath (dirs ++ [fname])) ::
      Eff.chunkCall (dirs ++ [fname]) (outRoot ++ dirs ++ [stemStr fname]) ::
      (split_chunks (envOf (dirs ++ [fname])) (dirs ++ [fname])
        (outRoot ++ dirs ++ [stemStr fname]) xp yp pfx).1 ∧
    (∃ tail, (process_tiff_directory envOf inDirName outRoot xp yp pfx
        ((dirs ++ [fname]) :: rest)).1 =
      (processOne envOf outRoot xp yp pfx (dirs ++ [fname])).1 ++ tail) := by
  have hsub : subdirFor outRoot (dirs ++ [fname]) =
      outRoot ++ dirs ++ [stemStr fname] := by
    unfold subdirFor basenameP
    rw [List.dropLast_concat, List.getLast?_concat]
  refine ⟨hsub, ?_, ?_⟩
  · simp only [processOne, hsub]
  · cases hp : processOne envOf outRoot xp yp pfx (dirs ++ [fname]) with
    | mk es r =>
      cases r with
      | error e =>
        refine ⟨[], ?_⟩
        unfold process_tiff_directory
        simp only [List.isEmpty_cons, Bool.false_eq_true, if_false]
        unfold runFiles
        rw [hp]
        simp
      | ok u =>
        cases hr : runFiles envOf outRoot xp yp pfx rest with
        | mk es2 r2 =>
          cases r2 with
          | error e =>
            refine ⟨es2, ?_⟩
            unfold process_tiff_directory
            simp only [List.isEmpty_cons, Bool.false_eq_true, if_false]
            unfold runFiles
            rw [hp, hr]
          | ok u2 =>
            refine ⟨es2 ++ [Eff.printMsg ("All GeoTIFF files processed.")], ?_⟩
            unfold process_tiff_directory
            simp only [List.isEmpty_cons, Bool.false_eq_true, if_false]
            unfold runFiles
            rw [hp, hr]
            simp

/-- Claim C8: a directory walk that discovers zero raster files only
reports this outcome: its trace is the single "No GeoTIFF files found"
message, it succeeds, and it contains no directory creation and no file
write. -/
theorem process_tiff_directory_empty (envOf : Path → Env)
    (inDirName : String) (outRoot : Path) (xp yp : Nat) (pfx : String) :
    (process_tiff_directory envOf inDirName outRoot xp yp pfx []).1 =
        [Eff.printMsg ("No GeoTIFF files found in directory: " ++ inDirName)] ∧
    (process_tiff_directory envOf inDirName outRoot xp yp pfx []).2 =
        Except.ok () ∧
    (∀ p, Eff.mkdirs p ∉
      (process_tiff_directory envOf inDirName outRoot xp yp pfx []).1) ∧
    (∀ p, Eff.writeFile p ∉
      (process_tiff_directory envOf inDirName outRoot xp yp pfx []).1) := by
  refine ⟨rfl, rfl, ?_, ?_⟩
  · intro p
    show Eff.mkdirs p ∉
      [Eff.printMsg ("No GeoTIFF files found in directory: " ++ inDirName)]
    simp
  · intro p
    show Eff.writeFile p ∉
      [Eff.printMsg ("No GeoTIFF files found in directory: " ++ inDirName)]
    simp

/-- Claim C9: two distinct source files `dirs/img.tif` and
`dirs/img.tiff` under the same input root are mapped by the walk to the
identical output subdirectory and to identical chunk filenames for equal
grid indices, so their outputs collide (path uniqueness holds only per
source file). -/
theorem process_tiff_directory_collision (outRoot : Path)
    (dirs : List String) :
    (dirs ++ [("img.tif")] : Path) ≠ dirs ++ [("img.tiff")] ∧
    subdirFor outRoot (dirs ++ [("img.tif")]) =
      subdirFor outRoot (dirs ++ [("img.tiff")]) ∧
    (∀ pfx i j,
      chunk_name pfx (stemStr (basenameP (dirs ++ [("img.tif")]))) i j =
        chunk_name pfx (stemStr (basenameP (dirs ++ [("img.tiff")]))) i j) := by
  have hb1 : basenameP (dirs ++ [("img.tif")]) = ("img.tif") := by
    unfold basenameP
    rw [List.getLast?_concat]
  have hb2 : basenameP (dirs ++ [("img.tiff")]) = ("img.tiff") := by
    unfold basenameP
    rw [List.getLast?_concat]
  have hstem : stemStr ("img.tif") = stemStr ("img.tiff") := by decide
  refine ⟨?_, ?_, ?_⟩
  · intro h
    exact absurd (List.append_cancel_left h) (by decide)
  · unfold subdirFor
    rw [List.dropLast_concat, List.dropLast_concat, hb1, hb2, hstem]
  · intro pfx i j
    rw [hb1, hb2, hstem]

end SplitTiff
